import Mathlib

/-!
Shallow embedding of the deterministic musical scheduler of
`src/js/embryo-player.js` (sampler/sequencer).  Times and tempi are modelled
as exact rationals; JavaScript numeric primitives (`Math.floor`, `Math.round`,
the `%` remainder whose sign follows the dividend, `Math.min`/`Math.max`) are
embedded as the functions `jsTrunc`, `jsmod`, `jsRound` below.
-/

namespace EmbryoPlayer

/-- JavaScript truncation toward zero, as used by the `%` operator:
`trunc(q)` is `⌊q⌋` for nonnegative `q` and `⌈q⌉` for negative `q`. -/
def jsTrunc (q : ℚ) : ℤ := if 0 ≤ q then ⌊q⌋ else ⌈q⌉

/-- The JavaScript remainder operator `a % b`: `a - b * trunc(a / b)`.
The sign of the result follows the dividend. -/
def jsmod (a b : ℚ) : ℚ := a - b * jsTrunc (a / b)

/-- JavaScript `Math.round`: round half toward positive infinity. -/
def jsRound (q : ℚ) : ℤ := ⌊q + 1/2⌋

/-! Constants from the configuration module (`src/unnamed/part_000`). -/

/-- `BEATS_PER_BAR = 4` (4/4 time signature). -/
def BEATS_PER_BAR : ℚ := 4

/-- `BAR_COUNT = 4` (4-bar loop). -/
def BAR_COUNT : ℚ := 4

/-- `MIN_BPM = 60`. -/
def MIN_BPM : ℚ := 60

/-- `MAX_BPM = 200`. -/
def MAX_BPM : ℚ := 200

/-- `SCHEDULE_AHEAD_TIME = 0.12` seconds (scheduler horizon). -/
def SCHEDULE_AHEAD_TIME : ℚ := 12/100

/-- `GRID_STEPS_PER_BEAT = 4` (16th-note grid). -/
def GRID_STEPS_PER_BEAT : ℕ := 4

/-- Sample bank identifiers `'A'`–`'D'`. -/
inductive Bank
  | A
  | B
  | C
  | D
deriving DecidableEq, Repr

/-- A recorded sequence event, as pushed by `recordPadEvent`
(`src/js/embryo-player.js`): `{ pad, time, bank, originalTime, quantized,
overdubbed }`.  `bank` and `originalTime` are optional because the code
guards on `ev.bank || this.currentBank` and
`event.originalTime !== undefined`. -/
structure Event where
  pad : ℕ
  bank : Option Bank
  time : ℚ
  originalTime : Option ℚ
  quantized : Bool
  overdubbed : Bool
deriving DecidableEq, Repr

/-- `barDuration()`: `(60 / this.bpm) * BEATS_PER_BAR`. -/
def barDuration (bpm : ℚ) : ℚ := 60 / bpm * BEATS_PER_BAR

/-- `beatDuration()`: `60 / this.bpm`. -/
def beatDuration (bpm : ℚ) : ℚ := 60 / bpm

/-- `quantizeTime(time)` from `src/js/embryo-player.js` (lines 2747–2762),
with the instance fields `this.bpm`, `this.gridStepsPerBeat`,
`this.quantizeStrength` made explicit parameters:
`stepIndex = Math.round(time / stepDuration)`;
`quantizedTime = stepIndex * stepDuration`;
`finalTime = time + (quantizedTime - time) * quantizeStrength`;
return `finalTime % (beatDuration * BEATS_PER_BAR)`. -/
def quantizeTime (bpm : ℚ) (gridStepsPerBeat : ℕ) (quantizeStrength : ℚ)
    (time : ℚ) : ℚ :=
  let beatDur := 60 / bpm
  let stepDuration := beatDur / gridStepsPerBeat
  let stepIndex := jsRound (time / stepDuration)
  let quantizedTime := (stepIndex : ℚ) * stepDuration
  let finalTime := time + (quantizedTime - time) * quantizeStrength
  jsmod finalTime (beatDur * BEATS_PER_BAR)

/-! Basic facts about the JavaScript remainder. -/

theorem jsTrunc_of_nonneg {q : ℚ} (h : 0 ≤ q) : jsTrunc q = ⌊q⌋ := if_pos h

theorem jsmod_eq_self {a b : ℚ} (ha : 0 ≤ a) (hab : a < b) : jsmod a b = a := by
  have hb : 0 < b := lt_of_le_of_lt ha hab
  have hq : 0 ≤ a / b := div_nonneg ha hb.le
  have hq1 : a / b < 1 := (div_lt_one hb).mpr hab
  have : jsTrunc (a / b) = 0 := by
    rw [jsTrunc_of_nonneg hq]
    exact Int.floor_eq_zero_iff.mpr ⟨hq, hq1⟩
  simp [jsmod, this]

theorem jsmod_nonneg_lt {a b : ℚ} (ha : 0 ≤ a) (hb : 0 < b) :
    0 ≤ jsmod a b ∧ jsmod a b < b := by
  have hq : 0 ≤ a / b := div_nonneg ha hb.le
  have hba : b * (a / b) = a := by field_simp
  have hkey : jsmod a b = b * Int.fract (a / b) := by
    calc jsmod a b = a - b * ⌊a / b⌋ := by rw [jsmod, jsTrunc_of_nonneg hq]
    _ = b * (a / b) - b * ⌊a / b⌋ := by rw [hba]
    _ = b * Int.fract (a / b) := by rw [Int.fract]; ring
  constructor
  · rw [hkey]
    exact mul_nonneg hb.le (Int.fract_nonneg _)
  · rw [hkey]
    have := Int.fract_lt_one (a / b)
    nlinarith

/-- Unfolding of `quantizeTime` with its `let` bindings inlined. -/
theorem quantizeTime_eq (bpm : ℚ) (g : ℕ) (s t : ℚ) :
    quantizeTime bpm g s t =
      jsmod (t + ((jsRound (t / (60 / bpm / g)) : ℚ) * (60 / bpm / g) - t) * s)
        (60 / bpm * BEATS_PER_BAR) := rfl

/-- The quantizer sends any nonnegative raw time into `[0, barDuration)`:
the grid-snapped value is nonnegative, the strength blend stays nonnegative,
and the final modulo wraps into the bar. -/
theorem quantize_range_core (bpm : ℚ) (g : ℕ) (s t : ℚ) (hb : 0 < bpm)
    (hg : 0 < g) (hs0 : 0 ≤ s) (hs1 : s ≤ 1) (ht0 : 0 ≤ t) :
    0 ≤ quantizeTime bpm g s t ∧ quantizeTime bpm g s t < barDuration bpm := by
  have hgq : (0 : ℚ) < g := by exact_mod_cast hg
  have hsd : (0 : ℚ) < 60 / bpm / g := by positivity
  have hL : (0 : ℚ) < 60 / bpm * BEATS_PER_BAR := by
    rw [BEATS_PER_BAR]; positivity
  have hidx : (0 : ℤ) ≤ jsRound (t / (60 / bpm / g)) := by
    rw [jsRound]
    exact Int.floor_nonneg.mpr
      (add_nonneg (div_nonneg ht0 hsd.le) (by norm_num))
  have hq0 : (0 : ℚ) ≤ (jsRound (t / (60 / bpm / g)) : ℚ) * (60 / bpm / g) :=
    mul_nonneg (by exact_mod_cast hidx) hsd.le
  have hf0 : 0 ≤ t + ((jsRound (t / (60 / bpm / g)) : ℚ) * (60 / bpm / g) - t) * s := by
    nlinarith
  have h := jsmod_nonneg_lt hf0 hL
  rw [quantizeTime_eq, barDuration]
  exact h

/-- At strength 1 the quantizer returns an integer multiple `m` of the grid
step with `|m|` strictly below the number of steps in a bar. -/
theorem quantize_strength_one_eq (bpm : ℚ) (g : ℕ) (hb : 0 < bpm) (hg : 0 < g)
    (t : ℚ) :
    ∃ m : ℤ, quantizeTime bpm g 1 t = 60 / bpm / g * m ∧
      -(4 * (g : ℤ)) < m ∧ m < 4 * g := by
  have hgq : (0 : ℚ) < g := by exact_mod_cast hg
  have hsd : (0 : ℚ) < 60 / bpm / g := by positivity
  set sd : ℚ := 60 / bpm / g with hsd_def
  set k : ℤ := jsRound (t / sd) with hk_def
  set d : ℤ := jsTrunc ((k : ℚ) / (4 * g)) with hd_def
  refine ⟨k - 4 * g * d, ?_, ?_, ?_⟩
  · rw [quantizeTime_eq]
    have harg : t + ((k : ℚ) * sd - t) * 1 = (k : ℚ) * sd := by ring
    have hLsd : 60 / bpm * BEATS_PER_BAR = sd * (4 * g) := by
      rw [BEATS_PER_BAR, hsd_def]; field_simp; ring
    rw [harg, hLsd, jsmod]
    have hdiv : (k : ℚ) * sd / (sd * (4 * g)) = (k : ℚ) / (4 * g) := by
      field_simp; ring
    rw [hdiv, ← hd_def]
    push_cast
    ring
  · -- lower bound on m = k - 4*g*d
    rcases le_or_lt 0 ((k : ℚ) / (4 * g)) with hx | hx
    · have hdq : d = ⌊(k : ℚ) / (4 * g)⌋ := by rw [hd_def, jsTrunc_of_nonneg hx]
      have h1 : ((d : ℚ)) ≤ (k : ℚ) / (4 * g) := hdq ▸ Int.floor_le _
      have : (0 : ℚ) ≤ (k : ℚ) - 4 * g * d := by
        have := mul_le_mul_of_nonneg_left h1 (by positivity : (0:ℚ) ≤ 4 * g)
        have hcancel : 4 * (g : ℚ) * ((k : ℚ) / (4 * g)) = k := by
          field_simp
        nlinarith
      have : (0 : ℤ) ≤ k - 4 * g * d := by exact_mod_cast this
      omega
    · have hdq : d = ⌈(k : ℚ) / (4 * g)⌉ := by
        rw [hd_def, jsTrunc, if_neg (not_le.mpr hx)]
      have h1 : (k : ℚ) / (4 * g) ≤ (d : ℚ) := hdq ▸ Int.le_ceil _
      have h2 : ((d : ℚ)) < (k : ℚ) / (4 * g) + 1 := by
        rw [hdq]; exact_mod_cast Int.ceil_lt_add_one _
      have hcancel : 4 * (g : ℚ) * ((k : ℚ) / (4 * g)) = k := by field_simp
      have : -(4 * (g : ℚ)) < (k : ℚ) - 4 * g * d := by nlinarith
      have : -(4 * (g : ℤ)) < k - 4 * g * d := by exact_mod_cast this
      omega
  · -- upper bound on m
    rcases le_or_lt 0 ((k : ℚ) / (4 * g)) with hx | hx
    · have hdq : d = ⌊(k : ℚ) / (4 * g)⌋ := by rw [hd_def, jsTrunc_of_nonneg hx]
      have h2 : (k : ℚ) / (4 * g) < (d : ℚ) + 1 := by
        rw [hdq]; exact Int.lt_floor_add_one _
      have hcancel : 4 * (g : ℚ) * ((k : ℚ) / (4 * g)) = k := by field_simp
      have : (k : ℚ) - 4 * g * d < 4 * g := by nlinarith
      have : k - 4 * g * d < 4 * g := by exact_mod_cast this
      omega
    · have hdq : d = ⌈(k : ℚ) / (4 * g)⌉ := by
        rw [hd_def, jsTrunc, if_neg (not_le.mpr hx)]
      have h1 : (k : ℚ) / (4 * g) ≤ (d : ℚ) := hdq ▸ Int.le_ceil _
      have hcancel : 4 * (g : ℚ) * ((k : ℚ) / (4 * g)) = k := by field_simp
      have : (k : ℚ) - 4 * g * d ≤ 0 := by nlinarith
      have h0 : k - 4 * g * d ≤ 0 := by exact_mod_cast this
      have : (0 : ℤ) < 4 * g := by positivity
      omega

/-- A grid multiple `sd * m` with `|m|` below the steps-per-bar count is a
fixed point of the strength-1 quantizer. -/
theorem quantize_strength_one_fix (bpm : ℚ) (g : ℕ) (hb : 0 < bpm) (hg : 0 < g)
    (m : ℤ) (hm1 : -(4 * (g : ℤ)) < m) (hm2 : m < 4 * g) :
    quantizeTime bpm g 1 (60 / bpm / g * m) = 60 / bpm / g * m := by
  have hgq : (0 : ℚ) < g := by exact_mod_cast hg
  have hsd : (0 : ℚ) < 60 / bpm / g := by positivity
  set sd : ℚ := 60 / bpm / g with hsd_def
  have hts : sd * (m : ℚ) / sd = (m : ℚ) := by field_simp
  have hround : jsRound (sd * (m : ℚ) / sd) = m := by
    rw [hts, jsRound, Int.floor_int_add]
    norm_num
  rw [quantizeTime_eq]
  rw [mul_comm sd (m : ℚ)] at hround hts ⊢
  rw [show (m : ℚ) * sd / sd = (m : ℚ) * sd / sd from rfl] at hround
  have harg : (m : ℚ) * sd + ((jsRound ((m : ℚ) * sd / sd) : ℚ) * sd - (m : ℚ) * sd) * 1
      = (m : ℚ) * sd := by rw [hround]; ring
  rw [harg]
  have hLsd : 60 / bpm * BEATS_PER_BAR = sd * (4 * g) := by
    rw [BEATS_PER_BAR, hsd_def]; field_simp; ring
  rw [hLsd, jsmod]
  have hdiv : (m : ℚ) * sd / (sd * (4 * g)) = (m : ℚ) / (4 * g) := by
    field_simp; ring
  rw [hdiv]
  have hzero : jsTrunc ((m : ℚ) / (4 * g)) = 0 := by
    rcases le_or_lt 0 m with hm | hm
    · have hx0 : (0 : ℚ) ≤ (m : ℚ) / (4 * g) := by positivity
      rw [jsTrunc_of_nonneg hx0]
      refine Int.floor_eq_zero_iff.mpr ⟨hx0, ?_⟩
      rw [div_lt_one (by positivity)]
      exact_mod_cast hm2
    · have hx : (m : ℚ) / (4 * g) < 0 := by
        apply div_neg_of_neg_of_pos _ (by positivity)
        exact_mod_cast hm
      rw [jsTrunc, if_neg (not_le.mpr hx)]
      have h1 : (-1 : ℚ) < (m : ℚ) / (4 * g) := by
        rw [neg_lt, ← neg_div]
        rw [div_lt_one (by positivity)]
        exact_mod_cast neg_lt.mpr hm1
      refine Int.ceil_eq_zero_iff.mpr ⟨h1, hx.le⟩
  rw [hzero]
  ring

/-- The mutable fields of the player object (constructor, lines 500–580 of
`src/js/embryo-player.js`) that the scheduler, dispatcher, tempo manager and
recorder read or write.  Timers are abstracted to booleans recording whether
the corresponding interval is installed; `activeSources` keeps only the pad
numbers of live audio sources; `scheduledEvents` is the dedup set, stored as
key/insertion-time pairs (the JS code deletes an entry via a 1-second
`setTimeout`, modelled by the liveness check in `hasLiveKey`). -/
structure PlayerState where
  bpm : ℚ
  isPlaying : Bool
  isRecording : Bool
  isOverdubbing : Bool
  isEditMode : Bool
  performanceMode : Bool
  quantizeMode : Bool
  quantizeStrength : ℚ
  gridStepsPerBeat : ℕ
  currentBank : Bank
  currentBar : ℕ
  currentBeat : ℕ
  sequence : List (List Event)
  scheduledEvents : List ((ℕ × Bank × ℤ) × ℚ)
  activeSources : List ℕ
  sequenceStartTime : ℚ
  overdubStartTime : ℚ
  nextNoteTime : ℚ
  schedulerTimer : Bool
  timersActive : Bool
  hasAudioContext : Bool
deriving Repr

/-- The numeric content of `when.toFixed(3)` for the nonnegative audio-clock
times used in dedup keys: the value rounded to the nearest thousandth,
in thousandths. -/
def round3 (q : ℚ) : ℤ := ⌊q * 1000 + 1/2⌋

/-- The dedup key built by `triggerScheduled` (line 3604):
`` `${ev.pad}-${ev.bank || this.currentBank}-${when.toFixed(3)}` ``. -/
def eventKey (p : PlayerState) (ev : Event) (when : ℚ) : ℕ × Bank × ℤ :=
  (ev.pad, ev.bank.getD p.currentBank, round3 when)

/-- Whether a dedup key is still present at time `now`: the JS code removes
an entry by a `setTimeout(…, 1000)` armed at insertion, so an entry inserted
at time `tIns` is present exactly while `now < tIns + 1`. -/
def hasLiveKey (entries : List ((ℕ × Bank × ℤ) × ℚ)) (key : ℕ × Bank × ℤ)
    (now : ℚ) : Bool :=
  entries.any fun e => decide (e.1 = key ∧ now < e.2 + 1)

/-- `triggerScheduled(ev, when)` (lines 3602–3622).  Returns the updated
state and the list of `playPad(pad, when)` calls issued (empty on the
duplicate-guard path).  The transient bank switch is restored by a zero-delay
callback immediately after `playPad`, so `currentBank` is unchanged. -/
def triggerScheduled (p : PlayerState) (now : ℚ) (ev : Event) (when : ℚ) :
    PlayerState × List (ℕ × ℚ) :=
  let key := eventKey p ev when
  if hasLiveKey p.scheduledEvents key now then (p, [])
  else ({ p with scheduledEvents := (key, now) :: p.scheduledEvents },
        [(ev.pad, when)])

/-- The BPM update of `changeTempo(change)` (line 1688):
`Math.max(MIN_BPM, Math.min(MAX_BPM, this.bpm + change))`. -/
def changeTempo (bpm change : ℚ) : ℚ := max MIN_BPM (min MAX_BPM (bpm + change))

/-- `recalculateSequenceTiming(oldBPM, newBPM)` (lines 1723–1758): no-op when
the tempi are equal, otherwise multiplies every event's `time` — and
`originalTime` when defined — by `oldBPM / newBPM` in every bar. -/
def recalculateSequenceTiming (oldBPM newBPM : ℚ)
    (sequence : List (List Event)) : List (List Event) :=
  if oldBPM = newBPM then sequence
  else
    let bpmRatio := oldBPM / newBPM
    sequence.map fun bar => bar.map fun ev =>
      { ev with time := ev.time * bpmRatio,
                originalTime := ev.originalTime.map fun t => t * bpmRatio }

/-- Event `j` of bar `i` of a sequence, when both indices are in range. -/
def getEvent (sequence : List (List Event)) (i j : ℕ) : Option Event :=
  (sequence.getD i [])[j]?

/-- The `relativeTime` local of `recordPadEvent` (lines 2686–2693):
`(currentTime - startTime) % (60 / this.bpm * BEATS_PER_BAR)`, taking the
overdub start time in overdub mode and the sequence start time otherwise. -/
def recordedRelativeTime (p : PlayerState) (currentTime : ℚ) : ℚ :=
  if p.isOverdubbing then
    jsmod (currentTime - p.overdubStartTime) (60 / p.bpm * BEATS_PER_BAR)
  else
    jsmod (currentTime - p.sequenceStartTime) (60 / p.bpm * BEATS_PER_BAR)

/-- The `quantizedTime` local of `recordPadEvent` (lines 2696–2699): the
relative time, quantized when quantize mode is on. -/
def recordedTime (p : PlayerState) (currentTime : ℚ) : ℚ :=
  if p.quantizeMode then
    quantizeTime p.bpm p.gridStepsPerBeat p.quantizeStrength
      (recordedRelativeTime p currentTime)
  else recordedRelativeTime p currentTime

/-- `recordPadEvent(padNumber)` (lines 2682–2736), with the audio-clock read
`this.audioContext.currentTime` passed in as `currentTime`: computes the
bar-relative time modulo the bar length, quantizes it when quantize mode is
on, and pushes the new event onto the current bar. -/
def recordPadEvent (p : PlayerState) (currentTime : ℚ) (padNumber : ℕ) :
    PlayerState :=
  let ev : Event :=
    { pad := padNumber, bank := some p.currentBank,
      time := recordedTime p currentTime,
      originalTime := some (recordedRelativeTime p currentTime),
      quantized := p.quantizeMode, overdubbed := p.isOverdubbing }
  let newSequence :=
    p.sequence.set p.currentBar ((p.sequence.getD p.currentBar []) ++ [ev])
  { p with sequence := newSequence }

/-- `startSequence()` (lines 3528–3541): cleans up active sources and the
dedup set, marks playback running, resets the cursor to
`now + 0.05` and installs the scheduler interval.  There is no guard on
`isPlaying`. -/
def startSequence (p : PlayerState) (now : ℚ) : PlayerState :=
  { p with activeSources := [], scheduledEvents := [],
           isPlaying := true,
           sequenceStartTime := now + 5/100,
           nextNoteTime := now + 5/100,
           currentBar := 0, currentBeat := 1,
           schedulerTimer := true }

/-- `stopSequence()` (lines 3692–3743): clears the scheduler interval and
all timers, sets `isPlaying` and `isRecording` to false, empties active
sources and the dedup set, exits edit mode, resets the bar/beat counters and
returns to performance mode. -/
def stopSequence (p : PlayerState) : PlayerState :=
  { p with schedulerTimer := false,
           isPlaying := false, isRecording := false,
           timersActive := false,
           activeSources := [], scheduledEvents := [],
           isEditMode := false,
           currentBar := 0, currentBeat := 1,
           performanceMode := true }

/-- `playSequence()` (lines 3966–4002): returns immediately when already
playing, when the audio context is missing, or when no bar holds any event;
otherwise resets the display counters, leaves performance mode and calls
`startSequence`. -/
def playSequence (p : PlayerState) (now : ℚ) : PlayerState :=
  if p.isPlaying then p
  else if !p.hasAudioContext then p
  else if !(p.sequence.any fun bar => !bar.isEmpty) then p
  else
    startSequence
      { p with isPlaying := true, currentBar := 0, currentBeat := 1,
               performanceMode := false } now

/-- `loopDuration = this.barDuration() * BAR_COUNT` (line 3550). -/
def tickLoopDuration (bpm : ℚ) : ℚ := barDuration bpm * BAR_COUNT

/-- `cycle = Math.floor(timeFromStart / loopDuration)` (line 3571). -/
def tickCycle (bpm sequenceStartTime nextNoteTime : ℚ) : ℤ :=
  ⌊(nextNoteTime - sequenceStartTime) / tickLoopDuration bpm⌋

/-- `barIndex = Math.floor((timeFromStart % loopDuration) / barDuration())`
(lines 3572–3573). -/
def tickBarIndex (bpm sequenceStartTime nextNoteTime : ℚ) : ℤ :=
  ⌊jsmod (nextNoteTime - sequenceStartTime) (tickLoopDuration bpm)
      / barDuration bpm⌋

/-- `this.sequence[barIndex]` (line 3576): the bar the scheduler reads in
this iteration; an out-of-range index yields `undefined`, which the
`if (bar && …)` guard treats as an empty bar. -/
def tickBar (bpm sequenceStartTime nextNoteTime : ℚ)
    (sequence : List (List Event)) : List Event :=
  let barIndex := tickBarIndex bpm sequenceStartTime nextNoteTime
  if 0 ≤ barIndex then sequence.getD barIndex.toNat [] else []

/-- `when = sequenceStartTime + cycle*loopDuration + barIndex*barDuration()
+ ev.time` (line 3579). -/
def tickWhen (bpm sequenceStartTime nextNoteTime : ℚ) (ev : Event) : ℚ :=
  sequenceStartTime
    + tickCycle bpm sequenceStartTime nextNoteTime * tickLoopDuration bpm
    + tickBarIndex bpm sequenceStartTime nextNoteTime * barDuration bpm
    + ev.time

/-- One iteration of the look-ahead `while` loop of `schedulerTick`
(lines 3568–3592): every event of the bar `nextNoteTime` falls into is
dispatched to `triggerScheduled` exactly when
`when >= now + 0.01 && when < now + SCHEDULE_AHEAD_TIME`; the function
returns the `(event, when)` pairs handed to the dispatcher, in bar order.
Events outside the window are dropped without any other effect. -/
def schedulerTickIteration (bpm sequenceStartTime nextNoteTime now : ℚ)
    (sequence : List (List Event)) : List (Event × ℚ) :=
  (tickBar bpm sequenceStartTime nextNoteTime sequence).filterMap fun ev =>
    if now + 1/100 ≤ tickWhen bpm sequenceStartTime nextNoteTime ev ∧
        tickWhen bpm sequenceStartTime nextNoteTime ev
          < now + SCHEDULE_AHEAD_TIME
    then some (ev, tickWhen bpm sequenceStartTime nextNoteTime ev)
    else none

/-! Claim theorems. -/

/-- C9: starting from any `bpm` in `[MIN_BPM, MAX_BPM] = [60, 200]` and any
change amount, `changeTempo` yields a BPM inside `[60, 200]`; the clamp is
silent — `changeTempo` is total, so no exception is possible. -/
theorem c9_bpm_clamped (bpm change : ℚ) (h1 : MIN_BPM ≤ bpm)
    (h2 : bpm ≤ MAX_BPM) :
    MIN_BPM ≤ changeTempo bpm change ∧ changeTempo bpm change ≤ MAX_BPM := by
  unfold changeTempo
  refine ⟨le_max_left _ _, max_le ?_ (min_le_left _ _)⟩
  rw [MIN_BPM, MAX_BPM]; norm_num

/-- Witness for C9 at `bpm = 120`, `change = 1000`. -/
theorem c9_bpm_clamped_w :
    MIN_BPM ≤ changeTempo 120 1000 ∧ changeTempo 120 1000 ≤ MAX_BPM :=
  c9_bpm_clamped 120 1000 (by rw [MIN_BPM]; norm_num)
    (by rw [MAX_BPM]; norm_num)

/-- C10: `stopSequence` always leaves the player with `isRecording = false`
in addition to `isPlaying = false` — stopping playback also terminates any
recording or overdub session in progress. -/
theorem c10_stop_clears_recording (p : PlayerState) :
    (stopSequence p).isRecording = false ∧ (stopSequence p).isPlaying = false :=
  ⟨rfl, rfl⟩

/-- A concrete player state that is currently RUNNING (`isPlaying = true`,
cursor at `sequenceStartTime = 10`). -/
def playingPlayer : PlayerState :=
  { bpm := 120, isPlaying := true, isRecording := false,
    isOverdubbing := false, isEditMode := false, performanceMode := false,
    quantizeMode := true, quantizeStrength := 1/2, gridStepsPerBeat := 4,
    currentBank := Bank.A, currentBar := 2, currentBeat := 1,
    sequence := [[], [], [], []], scheduledEvents := [], activeSources := [],
    sequenceStartTime := 10, overdubStartTime := 0, nextNoteTime := 18,
    schedulerTimer := true, timersActive := false, hasAudioContext := true }

/-- C6 counterexample: calling `startSequence` while playback is already
RUNNING is not a no-op — on a running player with `sequenceStartTime = 10`
and the clock at 20, it rewrites `sequenceStartTime` to `20.05`, restarting
the cursor. -/
theorem c6_start_not_noop : startSequence playingPlayer 20 ≠ playingPlayer := by
  intro h
  have h2 := congrArg PlayerState.sequenceStartTime h
  rw [startSequence] at h2
  simp only [playingPlayer] at h2
  norm_num at h2

/-- C6 amended: the running-guard lives one caller up — `playSequence`
returns the state unchanged when `isPlaying` is already true (while
`startSequence` itself unconditionally restarts the cursor) — and
`stopSequence` is idempotent: stopping an already stopped player changes
nothing and raises no error. -/
theorem c6_transport_idempotent (p : PlayerState) (now : ℚ) :
    (p.isPlaying = true → playSequence p now = p) ∧
    stopSequence (stopSequence p) = stopSequence p := by
  constructor
  · intro h
    rw [playSequence, if_pos h]
  · rfl

/-- Witness for C6 on the concrete running player. -/
theorem c6_transport_idempotent_w :
    playSequence playingPlayer 20 = playingPlayer ∧
    stopSequence (stopSequence playingPlayer) = stopSequence playingPlayer :=
  ⟨(c6_transport_idempotent playingPlayer 20).1 rfl,
    (c6_transport_idempotent playingPlayer 20).2⟩

/-- Mapping a function that fixes every element fixes the list. -/
theorem list_map_id_of {α : Type} (f : α → α) (h : ∀ a, f a = a)
    (l : List α) : l.map f = l := by
  induction l with
  | nil => rfl
  | cons a t ih => simp [h, ih]

/-- Pointwise description of `recalculateSequenceTiming` on a changed tempo:
the event at any in-range position is the original event with `time` and
`originalTime` multiplied by `oldBPM / newBPM`. -/
theorem recalc_getEvent (oldBPM newBPM : ℚ) (sequence : List (List Event))
    (hne : oldBPM ≠ newBPM) (i j : ℕ) (ev : Event)
    (hev : getEvent sequence i j = some ev) :
    getEvent (recalculateSequenceTiming oldBPM newBPM sequence) i j =
      some { ev with
             time := ev.time * (oldBPM / newBPM),
             originalTime :=
               ev.originalTime.map fun t => t * (oldBPM / newBPM) } := by
  rw [getEvent] at hev ⊢
  rw [recalculateSequenceTiming, if_neg hne]
  rw [List.getD_eq_getElem?_getD] at hev ⊢
  rw [List.getElem?_map]
  cases hseq : sequence[i]? with
  | none =>
      rw [hseq] at hev
      simp at hev
  | some bar =>
      rw [hseq] at hev
      simp only [Option.getD_some] at hev
      simp only [Option.map_some', Option.getD_some]
      rw [List.getElem?_map, hev]
      rfl

/-- C3: when the tempi differ, `recalculateSequenceTiming` multiplies the
`time` and `originalTime` of every event in every bar by exactly
`oldBPM / newBPM`, and it is a no-op when `oldBPM = newBPM`. -/
theorem c3_rescale (oldBPM newBPM : ℚ) (sequence : List (List Event)) :
    (oldBPM = newBPM →
      recalculateSequenceTiming oldBPM newBPM sequence = sequence) ∧
    (oldBPM ≠ newBPM → ∀ i j ev, getEvent sequence i j = some ev →
      getEvent (recalculateSequenceTiming oldBPM newBPM sequence) i j =
        some { ev with time := ev.time * (oldBPM / newBPM),
                       originalTime :=
                         ev.originalTime.map fun t => t * (oldBPM / newBPM) }) := by
  constructor
  · intro h
    rw [recalculateSequenceTiming, if_pos h]
  · exact fun hne i j ev hev => recalc_getEvent oldBPM newBPM sequence hne i j ev hev

/-- The event of the concrete one-event sequence below. -/
def evRec : Event :=
  { pad := 3, bank := some Bank.A, time := 1, originalTime := some 1,
    quantized := false, overdubbed := false }

/-- A concrete sequence holding one event at `time = 1` in bar 0. -/
def sampleSeq : List (List Event) := [[evRec], [], [], []]

/-- Witness for C3: a 60→60 change is a no-op, and a 120→60 change doubles
the stored times of the concrete event. -/
theorem c3_rescale_w :
    recalculateSequenceTiming 60 60 sampleSeq = sampleSeq ∧
    getEvent (recalculateSequenceTiming 120 60 sampleSeq) 0 0 =
      some ({ evRec with
              time := evRec.time * (120 / 60),
              originalTime :=
                evRec.originalTime.map fun t => t * (120 / 60) }) :=
  ⟨(c3_rescale 60 60 sampleSeq).1 rfl,
    (c3_rescale 120 60 sampleSeq).2 (by norm_num) 0 0 evRec rfl⟩

/-- C8: rescaling every event from `bpmA` to `bpmB` and back restores the
sequence exactly (the model works in exact rational arithmetic, so the
`1e-9` tolerance of the claim is met with error 0). -/
theorem c8_rescale_roundtrip (bpmA bpmB : ℚ) (ha : bpmA ≠ 0) (hb : bpmB ≠ 0)
    (sequence : List (List Event)) :
    recalculateSequenceTiming bpmB bpmA
      (recalculateSequenceTiming bpmA bpmB sequence) = sequence := by
  by_cases h : bpmA = bpmB
  · rw [recalculateSequenceTiming, if_pos h.symm, recalculateSequenceTiming,
      if_pos h]
  · have h' : ¬bpmB = bpmA := fun hh => h hh.symm
    unfold recalculateSequenceTiming
    rw [if_neg h', if_neg h, List.map_map]
    apply list_map_id_of
    intro bar
    simp only [Function.comp]
    rw [List.map_map]
    apply list_map_id_of
    intro ev
    have hr : ∀ t : ℚ, t * (bpmA / bpmB) * (bpmB / bpmA) = t := by
      intro t; field_simp
    cases ev with
    | mk pad bank time originalTime quantized overdubbed =>
        have horig : Option.map (fun t => t * (bpmB / bpmA))
            (Option.map (fun t => t * (bpmA / bpmB)) originalTime)
              = originalTime := by
          rw [Option.map_map]
          cases originalTime with
          | none => rfl
          | some t =>
              show some (t * (bpmA / bpmB) * (bpmB / bpmA)) = some t
              rw [hr t]
        simp [Function.comp, Event.mk.injEq, hr time, horig]

/-- Witness for C8: a 120→60→120 round trip on the concrete one-event
sequence restores it exactly. -/
theorem c8_rescale_roundtrip_w :
    recalculateSequenceTiming 60 120
      (recalculateSequenceTiming 120 60 sampleSeq) = sampleSeq :=
  c8_rescale_roundtrip 120 60 (by norm_num) (by norm_num) sampleSeq

/-- C4 counterexample: the final modulo of `quantizeTime` applies even at
strength 0, so the input `t = 4` — exactly one bar at BPM 60 — comes back
as `0`, refuting `quantize(t, bpm, steps, 0) = t` for every `t`. -/
theorem c4_strength_zero_cex : quantizeTime 60 4 0 4 ≠ 4 := by
  rw [quantizeTime_eq]
  have h1 : (4 : ℚ) + ((jsRound (4 / (60 / 60 / (4 : ℕ))) : ℚ)
      * (60 / 60 / (4 : ℕ)) - 4) * 0 = 4 := by ring
  rw [h1]
  have h2 : jsmod 4 (60 / 60 * BEATS_PER_BAR) = 0 := by
    rw [BEATS_PER_BAR, jsmod, jsTrunc]
    norm_num
  rw [h2]
  norm_num

/-- C4 amended: strength-0 quantization returns `t` unchanged for every `t`
in the quantizer's domain `[0, barDuration)` (outside it the final modulo
wraps `t`, as the counterexample shows), and strength-1 quantization is
idempotent for every `t`. -/
theorem c4_quantize_extremes (bpm : ℚ) (g : ℕ) (t : ℚ) (hb : 0 < bpm)
    (hg : 0 < g) :
    (0 ≤ t → t < barDuration bpm → quantizeTime bpm g 0 t = t) ∧
    quantizeTime bpm g 1 (quantizeTime bpm g 1 t) = quantizeTime bpm g 1 t := by
  constructor
  · intro ht0 ht1
    rw [quantizeTime_eq]
    have harg : t + ((jsRound (t / (60 / bpm / g)) : ℚ) * (60 / bpm / g) - t) * 0
        = t := by ring
    rw [harg]
    rw [barDuration] at ht1
    exact jsmod_eq_self ht0 ht1
  · obtain ⟨m, hm, hm1, hm2⟩ := quantize_strength_one_eq bpm g hb hg t
    rw [hm]
    exact quantize_strength_one_fix bpm g hb hg m hm1 hm2

/-- Witness for C4 at BPM 60, 4 steps per beat, `t = 1/3`. -/
theorem c4_quantize_extremes_w :
    quantizeTime 60 4 0 (1/3) = 1/3 ∧
    quantizeTime 60 4 1 (quantizeTime 60 4 1 (1/3)) =
      quantizeTime 60 4 1 (1/3) :=
  ⟨(c4_quantize_extremes 60 4 (1/3) (by norm_num) (by norm_num)).1
      (by norm_num) (by rw [barDuration, BEATS_PER_BAR]; norm_num),
    (c4_quantize_extremes 60 4 (1/3) (by norm_num) (by norm_num)).2⟩

/-- C5: for every raw time in `[0, barDuration)` and every strength in
`[0, 1]`, the quantizer's result lies in `[0, barDuration)`: the final
modulo wrap keeps the output below the bar length even when the snapped
grid time reaches it. -/
theorem c5_quantize_range (bpm : ℚ) (g : ℕ) (s t : ℚ) (hb : 0 < bpm)
    (hg : 0 < g) (hs0 : 0 ≤ s) (hs1 : s ≤ 1) (ht0 : 0 ≤ t)
    (ht1 : t < barDuration bpm) :
    0 ≤ quantizeTime bpm g s t ∧ quantizeTime bpm g s t < barDuration bpm :=
  quantize_range_core bpm g s t hb hg hs0 hs1 ht0

/-- Witness for C5 at BPM 120, strength 1/2, `t = 3/2` (bar length 2). -/
theorem c5_quantize_range_w :
    0 ≤ quantizeTime 120 4 (1/2) (3/2) ∧
    quantizeTime 120 4 (1/2) (3/2) < barDuration 120 :=
  c5_quantize_range 120 4 (1/2) (3/2) (by norm_num) (by norm_num)
    (by norm_num) (by norm_num) (by norm_num)
    (by rw [barDuration, BEATS_PER_BAR]; norm_num)

/-- C7: event times stay bar-relative in `[0, barDuration)` — recording
(with or without quantization, given a clock read at or after the session
start) appends an event whose `time` is in `[0, barDuration)`, the quantizer
maps `[0, barDuration)` into itself, and a tempo rescale maps times in
`[0, barDuration oldBPM)` into `[0, barDuration newBPM)`. -/
theorem c7_time_invariant (p : PlayerState) (currentTime : ℚ) (padNumber : ℕ)
    (hb : 0 < p.bpm) (hg : 0 < p.gridStepsPerBeat)
    (hs0 : 0 ≤ p.quantizeStrength) (hs1 : p.quantizeStrength ≤ 1)
    (hstart : (if p.isOverdubbing then p.overdubStartTime
               else p.sequenceStartTime) ≤ currentTime) :
    (∀ ev, getEvent (recordPadEvent p currentTime padNumber).sequence
        p.currentBar (p.sequence.getD p.currentBar []).length = some ev →
      0 ≤ ev.time ∧ ev.time < barDuration p.bpm) ∧
    (∀ t, 0 ≤ t → t < barDuration p.bpm →
      0 ≤ quantizeTime p.bpm p.gridStepsPerBeat p.quantizeStrength t ∧
        quantizeTime p.bpm p.gridStepsPerBeat p.quantizeStrength t
          < barDuration p.bpm) ∧
    (∀ oldBPM newBPM : ℚ, 0 < oldBPM → 0 < newBPM →
      ∀ sequence i j ev ev', getEvent sequence i j = some ev →
        getEvent (recalculateSequenceTiming oldBPM newBPM sequence) i j
          = some ev' →
        0 ≤ ev.time → ev.time < barDuration oldBPM →
        0 ≤ ev'.time ∧ ev'.time < barDuration newBPM) := by
  have hLpos : 0 < 60 / p.bpm * BEATS_PER_BAR := by
    rw [BEATS_PER_BAR]; positivity
  have hR : 0 ≤ recordedRelativeTime p currentTime ∧
      recordedRelativeTime p currentTime < 60 / p.bpm * BEATS_PER_BAR := by
    rw [recordedRelativeTime]
    by_cases hod : p.isOverdubbing = true
    · rw [if_pos hod]
      rw [if_pos hod] at hstart
      exact jsmod_nonneg_lt (sub_nonneg.mpr hstart) hLpos
    · rw [if_neg hod]
      rw [if_neg hod] at hstart
      exact jsmod_nonneg_lt (sub_nonneg.mpr hstart) hLpos
  have hT : 0 ≤ recordedTime p currentTime ∧
      recordedTime p currentTime < barDuration p.bpm := by
    rw [recordedTime]
    by_cases hq : p.quantizeMode = true
    · rw [if_pos hq]
      exact quantize_range_core p.bpm p.gridStepsPerBeat p.quantizeStrength
        (recordedRelativeTime p currentTime) hb hg hs0 hs1 hR.1
    · rw [if_neg hq, barDuration]
      exact hR
  refine ⟨?_, ?_, ?_⟩
  · intro ev hev
    simp only [recordPadEvent, getEvent] at hev
    rcases lt_or_ge p.currentBar p.sequence.length with hlt | hge
    · rw [List.getD_eq_getElem?_getD, List.getElem?_set_eq_of_lt _ hlt,
        Option.getD_some, List.getElem?_concat_length,
        Option.some.injEq] at hev
      subst hev
      exact hT
    · rw [List.set_eq_of_length_le hge] at hev
      have hnil : p.sequence.getD p.currentBar [] = [] := by
        rw [List.getD_eq_getElem?_getD, List.getElem?_len_le hge]
        rfl
      rw [hnil] at hev
      simp at hev
  · intro t ht0 ht1
    exact quantize_range_core p.bpm p.gridStepsPerBeat p.quantizeStrength t
      hb hg hs0 hs1 ht0
  · intro oldB newB ho hn sequence i j ev ev' hev hev' h0 h1
    by_cases heq : oldB = newB
    · rw [recalculateSequenceTiming, if_pos heq, hev] at hev'
      injection hev' with h
      subst h
      rw [← heq]
      exact ⟨h0, h1⟩
    · have h2 := recalc_getEvent oldB newB sequence heq i j ev hev
      rw [h2] at hev'
      injection hev' with h
      subst h
      constructor
      · show 0 ≤ ev.time * (oldB / newB)
        exact mul_nonneg h0 (by positivity)
      · show ev.time * (oldB / newB) < barDuration newB
        have ho' : oldB ≠ 0 := ho.ne'
        have hn' : newB ≠ 0 := hn.ne'
        have hkey : barDuration oldB * (oldB / newB) = barDuration newB := by
          rw [barDuration, barDuration]
          field_simp
        calc ev.time * (oldB / newB)
            < barDuration oldB * (oldB / newB) :=
              mul_lt_mul_of_pos_right h1 (by positivity)
          _ = barDuration newB := hkey

/-- A concrete recording state: not overdubbing, quantize off, current bar 0,
empty sequence, session started at time 10. -/
def recPlayer : PlayerState :=
  { playingPlayer with
    quantizeMode := false, currentBar := 0,
    isPlaying := false, schedulerTimer := false }

/-- The event `recordPadEvent` appends on `recPlayer` at clock time 11:
relative time `(11 - 10) % 2 = 1`, stored unquantized. -/
def evC7 : Event :=
  { pad := 5, bank := some Bank.A, time := 1, originalTime := some 1,
    quantized := false, overdubbed := false }

/-- Witness for C7: the concrete event recorded on `recPlayer` at clock
time 11 has its bar-relative time inside `[0, barDuration)`. -/
theorem c7_time_invariant_w :
    0 ≤ evC7.time ∧ evC7.time < barDuration recPlayer.bpm :=
  (c7_time_invariant recPlayer 11 5
      (by norm_num [recPlayer, playingPlayer])
      (by norm_num [recPlayer, playingPlayer])
      (by norm_num [recPlayer, playingPlayer])
      (by norm_num [recPlayer, playingPlayer])
      (by norm_num [recPlayer, playingPlayer])).1 evC7
    (by simp [recPlayer, playingPlayer, recordPadEvent, getEvent,
          recordedTime, recordedRelativeTime, quantizeTime_eq, jsmod,
          jsTrunc, jsRound, evC7, BEATS_PER_BAR, List.set, List.getD]
        norm_num)

/-- C1: in a scheduler tick iteration, an event of the bar `nextNoteTime`
falls into is dispatched — appears in the iteration's dispatch list, paired
with its computed absolute start time — if and only if
`now + 0.01 ≤ when < now + SCHEDULE_AHEAD_TIME`; in particular an event with
`when < now + 0.01` is silently dropped, and the tick is a total function,
so no error is raised. -/
theorem c1_dispatch_window_iff (bpm seqStart nextNote now : ℚ)
    (sequence : List (List Event)) (ev : Event)
    (hmem : ev ∈ tickBar bpm seqStart nextNote sequence) :
    (ev, tickWhen bpm seqStart nextNote ev) ∈
        schedulerTickIteration bpm seqStart nextNote now sequence ↔
      (now + 1/100 ≤ tickWhen bpm seqStart nextNote ev ∧
        tickWhen bpm seqStart nextNote ev < now + SCHEDULE_AHEAD_TIME) := by
  rw [schedulerTickIteration, List.mem_filterMap]
  constructor
  · rintro ⟨a, ha, hfa⟩
    by_cases hc : now + 1/100 ≤ tickWhen bpm seqStart nextNote a ∧
        tickWhen bpm seqStart nextNote a < now + SCHEDULE_AHEAD_TIME
    · rw [if_pos hc] at hfa
      injection hfa with h
      rw [Prod.mk.injEq] at h
      obtain ⟨h1, -⟩ := h
      subst h1
      exact hc
    · rw [if_neg hc] at hfa
      cases hfa
  · intro hc
    refine ⟨ev, hmem, ?_⟩
    rw [if_pos hc]

/-- The event of the concrete scheduler scenario: pad 3 at `time = 1/20`
into its bar. -/
def evC1 : Event :=
  { pad := 3, bank := some Bank.A, time := 1/20, originalTime := some (1/20),
    quantized := false, overdubbed := false }

/-- A concrete sequence with the scenario event in bar 0. -/
def seqC1 : List (List Event) := [[evC1], [], [], []]

/-- Witness for C1: at BPM 120 with `sequenceStartTime = nextNoteTime =
now = 10`, the bar-0 event at `time = 1/20` has `when = 10.05`, inside the
window `[10.01, 10.12)`, and is dispatched. -/
theorem c1_dispatch_window_iff_w :
    (evC1, tickWhen 120 10 10 evC1) ∈
      schedulerTickIteration 120 10 10 10 seqC1 := by
  have hbar : tickBarIndex 120 10 10 = 0 := by
    rw [tickBarIndex]
    norm_num [jsmod, jsTrunc, tickLoopDuration, barDuration, BEATS_PER_BAR,
      BAR_COUNT]
  have hcyc : tickCycle 120 10 10 = 0 := by
    rw [tickCycle]
    norm_num [tickLoopDuration, barDuration, BEATS_PER_BAR, BAR_COUNT]
  have hmem : evC1 ∈ tickBar 120 10 10 seqC1 := by
    rw [tickBar, hbar]
    simp [seqC1]
  have hwhen : tickWhen 120 10 10 evC1 = 201/20 := by
    rw [tickWhen, hbar, hcyc, evC1]
    norm_num
  refine (c1_dispatch_window_iff 120 10 10 10 seqC1 evC1 hmem).mpr ?_
  rw [hwhen, SCHEDULE_AHEAD_TIME]
  norm_num

/-- C2: two dispatches of the same pad and bank whose start times round to
the same 3 decimal places, the second within the 1-second TTL of the first,
produce exactly one `playPad` call: the first call plays, the duplicate is
a no-op. -/
theorem c2_trigger_dedup (p : PlayerState) (t1 t2 w1 w2 : ℚ)
    (ev1 ev2 : Event) (hinit : p.scheduledEvents = [])
    (hpad : ev1.pad = ev2.pad) (hbank : ev1.bank = ev2.bank)
    (hw : round3 w1 = round3 w2) (h12 : t1 ≤ t2) (httl : t2 < t1 + 1) :
    (triggerScheduled p t1 ev1 w1).2 = [(ev1.pad, w1)] ∧
    (triggerScheduled (triggerScheduled p t1 ev1 w1).1 t2 ev2 w2).2 = [] := by
  have hfirst : triggerScheduled p t1 ev1 w1 =
      ({ p with scheduledEvents := [(eventKey p ev1 w1, t1)] },
        [(ev1.pad, w1)]) := by
    rw [triggerScheduled, hinit]
    rfl
  constructor
  · rw [hfirst]
  · rw [hfirst]
    rw [triggerScheduled]
    have hkeys :
        eventKey { p with scheduledEvents := [(eventKey p ev1 w1, t1)] } ev2 w2
          = eventKey p ev1 w1 := by
      simp only [eventKey, ← hpad, ← hbank, ← hw]
    rw [hkeys]
    have hlive : hasLiveKey [(eventKey p ev1 w1, t1)] (eventKey p ev1 w1) t2
        = true := by
      simp [hasLiveKey, httl]
    rw [if_pos hlive]

/-- Witness for C2: on a player with an empty dedup set, dispatching pad 3
twice at `when = 21/2` (second call 0.5 s after the first) plays once. -/
theorem c2_trigger_dedup_w :
    (triggerScheduled playingPlayer 0 evRec (21/2)).2 = [(evRec.pad, 21/2)] ∧
    (triggerScheduled (triggerScheduled playingPlayer 0 evRec (21/2)).1
        (1/2) evRec (21/2)).2 = [] :=
  c2_trigger_dedup playingPlayer 0 (1/2) (21/2) (21/2) evRec evRec rfl rfl
    rfl rfl (by norm_num) (by norm_num)

end EmbryoPlayer
